import Mathlib

/-!
Verification development for the clause-ai legal-document analysis pipeline.

The definitions below are a shallow embedding of the deterministic core of
the repository: the string utilities mirror the JavaScript string and regex
operations used by the source, and the analyzer / scorer / orchestrator
definitions mirror the corresponding functions in `src/lib` tools and the
`POST /api/chat` route.  JavaScript numbers are modelled as rationals and
element lists as Lean lists.
-/

namespace ClauseAI

/-- Characters treated as whitespace by the JavaScript regex class `\s`
(restricted to the ASCII whitespace characters that occur in the analyzed
texts), used by the source for splitting and trimming. -/
def isWsChar (c : Char) : Bool :=
  c == ' ' || c == '\t' || c == '\n' || c == '\r' || c == '\x0b' || c == '\x0c'

/-- Sentence terminator characters, matching the character class `[.!?]` used
by the source to split content into sentences. -/
def isTermChar (c : Char) : Bool :=
  c == '.' || c == '!' || c == '?'

/-- Character-wise lowercasing, matching `String.prototype.toLowerCase` on
the ASCII texts the analyzer handles. -/
def lowerChars (l : List Char) : List Char := l.map Char.toLower

/-- Bool-valued prefix test on character lists. -/
def isPrefOf : List Char → List Char → Bool
  | [], _ => true
  | _ :: _, [] => false
  | a :: as, b :: bs => a == b && isPrefOf as bs

/-- Substring containment on character lists, matching
`String.prototype.includes`. -/
def containsSub : List Char → List Char → Bool
  | [], pat => isPrefOf pat []
  | c :: t, pat => isPrefOf pat (c :: t) || containsSub t pat

/-- Scanner for non-overlapping occurrences of a nonempty pattern: walk the
list one character at a time; `skip` counts positions still covered by the
previous match (a global JavaScript regex resumes searching right after each
match). -/
def countOccurAux (pat : List Char) : List Char → Nat → Nat
  | [], _ => 0
  | _ :: t, Nat.succ skip => countOccurAux pat t skip
  | c :: t, 0 =>
    if isPrefOf pat (c :: t) then 1 + countOccurAux pat t (pat.length - 1)
    else countOccurAux pat t 0

/-- Number of non-overlapping occurrences of `pat` in `s`, matching the
match count of `String.prototype.match` with a global regex built from a
plain keyword.  An empty pattern matches at every position, as in
JavaScript. -/
def countOccur (s pat : List Char) : Nat :=
  if pat.isEmpty then s.length + 1 else countOccurAux pat s 0

/-- Splitter on maximal runs of characters satisfying `p`, matching
`String.prototype.split` with a regex of the form `[…]+` (for example
`/[.!?]+/` or `/\s+/`): consecutive separator characters produce a single
split, while a leading or trailing separator run yields an empty fragment.
`cur` is the current fragment (reversed) and `inSep` records whether the
previous character belonged to a separator run. -/
def splitRunsAux (p : Char → Bool) : List Char → List Char → Bool → List (List Char)
  | [], cur, _ => [cur.reverse]
  | c :: rest, cur, inSep =>
    if p c then
      if inSep then splitRunsAux p rest cur true
      else cur.reverse :: splitRunsAux p rest [] true
    else splitRunsAux p rest (c :: cur) false

/-- Split a character list on maximal runs of `p`-characters. -/
def splitRuns (p : Char → Bool) (l : List Char) : List (List Char) :=
  splitRunsAux p l [] false

/-- Stable insertion of `x` into an already sorted list: `x` moves past
exactly the elements that strictly precede it (`prec y x` true), so it lands
before every element of equal rank.  Used to model the stable
`Array.prototype.sort`. -/
def stableInsert (prec : α → α → Bool) (x : α) : List α → List α
  | [] => [x]
  | y :: ys => if prec y x then y :: stableInsert prec x ys else x :: y :: ys

/-- Stable sort by insertion from the back of the list: produces the unique
stable ordering with respect to the strict precedence `prec`, which is the
output of the stable `Array.prototype.sort` with the corresponding
comparator. -/
def stableSort (prec : α → α → Bool) : List α → List α
  | [] => []
  | y :: ys => stableInsert prec y (stableSort prec ys)

/-- Strip leading and trailing whitespace, matching
`String.prototype.trim`. -/
def trimChars (l : List Char) : List Char :=
  ((l.dropWhile isWsChar).reverse.dropWhile isWsChar).reverse

/-- Lowercase a string, as `toLowerCase`. -/
def strLower (s : String) : String := ⟨lowerChars s.data⟩

/-- `s.includes(pat)` on strings. -/
def strIncludes (s pat : String) : Bool := containsSub s.data pat.data

/-- `s.startsWith(pre)` on strings. -/
def jsStartsWith (s pre : String) : Bool := isPrefOf pre.data s.data

/-- `Math.round` of JavaScript: halves round toward positive infinity. -/
def jsRound (q : ℚ) : ℤ := ⌊q + 1 / 2⌋

/-! ### Keyword tables of the analyzer (termsAnalyzerTool) -/

def dataCollectionKeywords : List String :=
  ["personal information", "personal data", "personally identifiable information", "pii",
   "collect", "gather", "obtain", "process", "store", "record",
   "email address", "ip address", "location data", "cookies", "tracking",
   "analytics", "usage data", "device information", "payment information",
   "biometric data", "health information", "demographic information"]

def userRightsKeywords : List String :=
  ["delete", "remove", "access", "modify", "correct", "update",
   "opt-out", "opt out", "unsubscribe", "withdraw consent", "right to",
   "data protection", "privacy rights", "user control", "request information",
   "portability", "erasure", "gdpr", "ccpa", "california privacy rights"]

def sharingKeywords : List String :=
  ["third party", "third-party", "share", "disclose", "transfer", "sell",
   "partner", "affiliate", "vendor", "service provider", "advertiser",
   "marketing", "business transfer", "merger", "government", "law enforcement"]

def securityKeywords : List String :=
  ["security", "encrypt", "encryption", "secure", "protect", "safeguard",
   "ssl", "tls", "https", "data breach", "unauthorized access", "firewall",
   "authentication", "access control", "cybersecurity", "backup"]

def contractKeywords : List String :=
  ["agreement", "contract", "obligations", "duties", "responsibilities",
   "breach", "default", "termination", "renewal", "payment terms",
   "liability", "indemnification", "warranties", "governing law"]

def ndaKeywords : List String :=
  ["confidential", "confidentiality", "non-disclosure", "proprietary",
   "trade secret", "disclosure", "receiving party", "disclosing party",
   "confidential information", "non-compete", "non-solicitation"]

/-! ### Section relevance finder (findRelevantSections) -/

/-- Relevance score of one sentence: each keyword occurrence counts once,
doubled when the keyword is longer than 5 characters, as in the pattern
weights of `findRelevantSections`. -/
def sentenceScore (lowSentence : List Char) (keywords : List String) : Nat :=
  (keywords.map fun k =>
    countOccur lowSentence (lowerChars k.data) * (if k.length > 5 then 2 else 1)).sum

/-- The scored sentence list of `findRelevantSections`: split content into
sentences on `[.!?]+`, keep sentences whose trimmed length exceeds 20, score
each against the keyword list and keep the positive scores (paired with the
trimmed sentence, as pushed by the source). -/
def relevantOf (content : String) (keywords : List String) : List (List Char × Nat) :=
  ((splitRuns isTermChar content.data).filter
      fun s => (trimChars s).length > 20).filterMap
    fun sentence =>
      let score := sentenceScore (lowerChars sentence) keywords
      if score > 0 then some (trimChars sentence, score) else none

/-- `findRelevantSections`: sort the scored sentences by score descending
(stable) and return the texts of the top 5. -/
def findRelevantSections (content : String) (keywords : List String) : List String :=
  (((stableSort fun a b => decide (b.2 < a.2)) (relevantOf content keywords)).take 5).map
    fun item => ⟨item.1⟩

/-! ### Category score adjustment (calculateScore) -/

/-- `calculateScore`: convert the matched-sentence list of one category into
a raw score with a category-specific nonlinear adjustment. -/
def calculateScore (details : List String) (category : String) : ℚ :=
  if details.length = 0 then 0
  else
    let baseScore : ℚ := min ((details.length : ℚ) * 1.5) 10
    if category = "data_collection" then min (baseScore * 0.8) 8
    else if category = "user_rights" then min (baseScore * 1.2) 10
    else if category = "data_sharing" then max baseScore 3
    else if category = "security" then min (baseScore * 1.1) 10
    else if category = "contract_terms" then min baseScore 10
    else if category = "confidentiality" then min (baseScore * 1.1) 10
    else baseScore

/-! ### Score weights (getScoreWeights) -/

structure ScoreWeights where
  dataCollection : ℚ
  userRights : ℚ
  dataSharing : ℚ
  security : ℚ

/-- `getScoreWeights`: the static weight table keyed by document type. -/
def getScoreWeights (documentType : String) : ScoreWeights :=
  if documentType = "privacy" then ⟨25, 35, 25, 15⟩
  else if documentType = "terms" then ⟨20, 30, 30, 20⟩
  else if documentType = "nda" then ⟨15, 20, 35, 30⟩
  else if documentType = "contract" then ⟨10, 25, 30, 35⟩
  else if documentType = "eula" then ⟨20, 25, 25, 30⟩
  else if documentType = "cookies" then ⟨35, 30, 25, 10⟩
  else ⟨25, 30, 25, 20⟩

/-! ### Risk assessor (assessRiskFactors) -/

def highRiskTerms : List String :=
  ["sell your data",
   "share with partners",
   "no warranty",
   "may terminate at any time",
   "without notice",
   "change terms without notice",
   "track across websites",
   "location tracking"]

def mediumRiskTerms : List String :=
  ["advertising partners",
   "marketing purposes",
   "business purposes",
   "merger or acquisition",
   "government request",
   "automated decision making"]

/-- One scanning pass of the risk assessor: walk the term list in order,
append a labeled finding for every term contained in the lowercased content,
and stop as soon as the accumulated finding list reaches 5 entries (the
source checks the bound right after each push). -/
def riskScan (terms : List String) (label : String) (low : String)
    (acc : List String) : List String :=
  match terms with
  | [] => acc
  | t :: ts =>
    if strIncludes low t then
      let acc2 := acc ++ [label ++ t]
      if acc2.length ≥ 5 then acc2 else riskScan ts label low acc2
    else riskScan ts label low acc

/-- `assessRiskFactors`: scan the high-risk terms first, then the medium-risk
terms only if fewer than 5 findings were collected. -/
def assessRiskFactors (content : String) (documentType : String) : List String :=
  let lowerContent := strLower content
  let riskFactors := riskScan highRiskTerms "High Risk: " lowerContent []
  if riskFactors.length < 5 then
    riskScan mediumRiskTerms "Medium Risk: " lowerContent riskFactors
  else riskFactors

/-! ### Data model of the analyzer and scorer results -/

/-- One category entry of the analyzer result. -/
structure CategoryResult where
  found : Bool
  details : List String
  score : ℚ

/-- The `analysis` object of the analyzer result.  The two conditional
categories are present only when the corresponding section list is nonempty,
mirroring the conditional object spreading in the source. -/
structure AnalysisResults where
  dataCollection : CategoryResult
  userRights : CategoryResult
  dataSharing : CategoryResult
  security : CategoryResult
  contractTerms : Option CategoryResult
  confidentialityTerms : Option CategoryResult

/-- Result of `termsAnalyzerTool` (the fields the scoring pipeline
consumes). -/
structure AnalyzerResult where
  documentType : String
  wordCount : Nat
  readingTimeMinutes : Nat
  analysis : AnalysisResults
  riskFactors : List String

/-- Build one always-present category entry, as in the analyzer result
object: `found` is true iff at least one relevant section matched. -/
def mkCategory (details : List String) (category : String) : CategoryResult :=
  ⟨!details.isEmpty, details, calculateScore details category⟩

/-- `termsAnalyzerTool.execute`: run the section relevance finder over the
four base categories (plus the document-type-specific ones) and assess risk
factors. -/
def termsAnalyzer (content : String) (documentType : String) : AnalyzerResult :=
  let wordCount := (splitRuns isWsChar (trimChars content.data)).length
  let dataCollection := findRelevantSections content dataCollectionKeywords
  let userRights := findRelevantSections content userRightsKeywords
  let dataSharing := findRelevantSections content sharingKeywords
  let security := findRelevantSections content securityKeywords
  let contractTerms :=
    if documentType = "contract" ∨ documentType = "eula" then
      findRelevantSections content contractKeywords
    else []
  let confidentialityTerms :=
    if documentType = "nda" then findRelevantSections content ndaKeywords
    else []
  let riskFactors := assessRiskFactors content documentType
  { documentType := documentType
    wordCount := wordCount
    readingTimeMinutes := (wordCount + 199) / 200
    analysis :=
      { dataCollection := mkCategory dataCollection "data_collection"
        userRights := mkCategory userRights "user_rights"
        dataSharing := mkCategory dataSharing "data_sharing"
        security := mkCategory security "security"
        contractTerms :=
          if contractTerms.isEmpty then none
          else some (mkCategory contractTerms "contract_terms")
        confidentialityTerms :=
          if confidentialityTerms.isEmpty then none
          else some (mkCategory confidentialityTerms "confidentiality") }
    riskFactors := riskFactors }

/-- Result of `directTextAnalyzerTool` (the fields the pipeline consumes). -/
structure TextExtract where
  title : String
  documentType : String
  content : String
  wordCount : Nat

/-- `directTextAnalyzerTool.execute`: auto-detect the document type of
pasted text and truncate very long content to the first 70 percent of its
sentences. -/
def directTextAnalyzer (content : String) (documentType : String) : TextExtract :=
  let wordCount :=
    ((splitRuns isWsChar (trimChars content.data)).filter fun w => w.length > 0).length
  let lowerContent := strLower content
  let documentType :=
    if documentType = "terms" then
      if strIncludes lowerContent "privacy policy" ||
          strIncludes lowerContent "personal data" ||
          strIncludes lowerContent "data collection" then "privacy"
      else if strIncludes lowerContent "cookie" &&
          strIncludes lowerContent "tracking" then "cookies"
      else if strIncludes lowerContent "non-disclosure" ||
          strIncludes lowerContent "confidential" then "nda"
      else if strIncludes lowerContent "end user license" ||
          strIncludes lowerContent "software license" then "eula"
      else if strIncludes lowerContent "contract" ||
          strIncludes lowerContent "agreement" then "contract"
      else documentType
    else documentType
  let content :=
    if wordCount > 3000 then
      let sentences := splitRuns isTermChar content.data
      let truncated := sentences.take (sentences.length * 7 / 10)
      String.mk (List.intercalate (". ".data) truncated) ++ "."
    else content
  { title := "Pasted " ++ documentType ++ " Document"
    documentType := documentType
    content := content
    wordCount := wordCount }

/-! ### Document scorer (privacyPolicyScorerTool) -/

/-- Weighted data collection contribution of the scorer. -/
def dataCollectionWeighted (found : Bool) (score : ℚ) (documentType : String)
    (w : ℚ) : ℚ :=
  if found then min w (max 5 (score * w / 10))
  else if documentType = "privacy" then 5 else w / 2

/-- Weighted user rights contribution of the scorer. -/
def userRightsWeighted (found : Bool) (score : ℚ) (documentType : String)
    (w : ℚ) : ℚ :=
  if found then min w (max 5 (score * w / 10))
  else if documentType = "privacy" then 5 else w / 2

/-- Weighted data sharing contribution of the scorer (inverted: a higher raw
sharing score lowers the contribution). -/
def dataSharingWeighted (found : Bool) (score : ℚ) (w : ℚ) : ℚ :=
  if found then max 5 (w - score * w / 15)
  else w * 0.8

/-- Weighted security contribution of the scorer. -/
def securityWeighted (found : Bool) (score : ℚ) (w : ℚ) : ℚ :=
  if found then min w (max 5 (score * w / 10))
  else w / 2

/-- One entry of the score breakdown. -/
structure BreakdownEntry where
  score : ℤ
  maxScore : ℚ
  description : String

/-- The breakdown object of the scorer result. -/
structure Breakdown where
  dataCollection : BreakdownEntry
  userRights : BreakdownEntry
  dataSharing : BreakdownEntry
  security : BreakdownEntry
  contractTerms : Option BreakdownEntry
  confidentialityTerms : Option BreakdownEntry

/-- Result of `privacyPolicyScorerTool`. -/
structure ScoreResult where
  documentType : String
  overallScore : ℤ
  rating : String
  color : String
  breakdown : Breakdown
  riskFactors : List String
  riskPenalty : ℕ
  recommendations : List String

/-- `generateRecommendations`: fixed-priority recommendation texts, truncated
to the first 6. -/
def generateRecommendations (analysisResults : AnalysisResults)
    (documentType : String) (riskFactors : List String)
    (overallScore : ℤ) : List String :=
  let dataCollection := analysisResults.dataCollection
  let userRights := analysisResults.userRights
  let dataSharing := analysisResults.dataSharing
  let security := analysisResults.security
  let recs :=
    (if dataCollection.score < 7 then
      ["Improve transparency about what data is collected and how it's used"]
     else []) ++
    (if userRights.score < 7 then
      ["Clearly outline user rights and provide easy ways to exercise them"]
     else []) ++
    (if dataSharing.score > 5 then
      ["Reduce third-party data sharing or improve disclosure about partners"]
     else []) ++
    (if security.score < 7 then
      ["Strengthen security measures and provide more details about data protection"]
     else []) ++
    (if riskFactors.length > 0 then
      ["Review and address identified risk factors"]
     else []) ++
    (if documentType = "privacy" then
      (if overallScore < 60 then
        ["Consider implementing stronger privacy controls to comply with GDPR/CCPA"]
       else []) ++
      (if !dataCollection.found then
        ["Provide clear information about data collection practices"]
       else [])
     else []) ++
    (if documentType = "terms" then
      (if overallScore < 50 then
        ["Make terms more user-friendly and transparent"]
       else []) ++
      (if !userRights.found then
        ["Include clear information about user rights and dispute resolution"]
       else [])
     else []) ++
    (if documentType = "nda" then
      (if overallScore < 70 then
        ["Consider more balanced confidentiality terms"]
       else []) ++
      ["Ensure confidentiality scope is clearly defined and reasonable"]
     else []) ++
    (if overallScore < 40 then
      ["Major improvements needed for user protection and transparency"]
     else if overallScore < 60 then
      ["Several areas need improvement for better user protection"]
     else if overallScore < 80 then
      ["Good foundation with room for improvement in key areas"]
     else [])
  recs.take 6

/-- `privacyPolicyScorerTool.execute`: combine the category scores, the
document-type weights and the risk penalty into the comprehensive score.
The `riskFactors` parameter defaults to the empty list in the source; the
caller that omits it passes `[]` here. -/
def privacyPolicyScorer (analysisResults : AnalysisResults)
    (documentType : String) (riskFactors : List String) : ScoreResult :=
  let dataCollection := analysisResults.dataCollection
  let userRights := analysisResults.userRights
  let dataSharing := analysisResults.dataSharing
  let security := analysisResults.security
  let contractTerms := analysisResults.contractTerms
  let confidentialityTerms := analysisResults.confidentialityTerms
  let weights := getScoreWeights documentType
  let dataCollectionScore :=
    dataCollectionWeighted dataCollection.found dataCollection.score
      documentType weights.dataCollection
  let userRightsScore :=
    userRightsWeighted userRights.found userRights.score
      documentType weights.userRights
  let dataSharingScore :=
    dataSharingWeighted dataSharing.found dataSharing.score weights.dataSharing
  let securityScore :=
    securityWeighted security.found security.score weights.security
  let contractScore : ℚ :=
    match contractTerms with
    | some ct =>
      if documentType = "contract" then
        if ct.found then min 15 (max 5 (ct.score * 1.5)) else 8
      else 0
    | none => 0
  let confidentialityScore : ℚ :=
    match confidentialityTerms with
    | some ct =>
      if documentType = "nda" then
        if ct.found then min 20 (max 5 (ct.score * 2)) else 10
      else 0
    | none => 0
  let riskPenalty := min 15 (riskFactors.length * 3)
  let overallScore := jsRound
    (dataCollectionScore + userRightsScore + dataSharingScore + securityScore +
      contractScore + confidentialityScore - (riskPenalty : ℚ))
  let overallScore := max 0 (min 100 overallScore)
  let rating := if overallScore ≥ 80 then "Excellent"
    else if overallScore ≥ 65 then "Good"
    else if overallScore ≥ 50 then "Fair"
    else if overallScore ≥ 35 then "Poor"
    else "Very Poor"
  let color := if overallScore ≥ 80 then "green"
    else if overallScore ≥ 65 then "blue"
    else if overallScore ≥ 50 then "yellow"
    else if overallScore ≥ 35 then "orange"
    else "red"
  { documentType := documentType
    overallScore := overallScore
    rating := rating
    color := color
    breakdown :=
      { dataCollection :=
          ⟨jsRound dataCollectionScore, weights.dataCollection,
            "Transparency in data collection practices"⟩
        userRights :=
          ⟨jsRound userRightsScore, weights.userRights,
            "User control and rights protection"⟩
        dataSharing :=
          ⟨jsRound dataSharingScore, weights.dataSharing,
            "Third-party data sharing practices"⟩
        security :=
          ⟨jsRound securityScore, weights.security,
            "Security measures and protection"⟩
        contractTerms :=
          if contractScore > 0 then
            some ⟨jsRound contractScore, 15, "Contract terms and obligations"⟩
          else none
        confidentialityTerms :=
          if confidentialityScore > 0 then
            some ⟨jsRound confidentialityScore, 20,
              "Confidentiality and non-disclosure terms"⟩
          else none }
    riskFactors := riskFactors
    riskPenalty := riskPenalty
    recommendations :=
      generateRecommendations analysisResults documentType riskFactors
        overallScore }

/-! ### Pipeline orchestrator (POST /api/chat) -/

/-- Outcome of the external URL content fetch (urlContentFetcherTool), an
external collaborator: extracted content and sniffed document type, or a
failure. -/
structure Fetched where
  content : String
  documentType : String

/-- Failure modes of the deterministic pipeline stages. -/
inductive PipeError where
  | invalidInput : PipeError
  | fetchFailed : PipeError
deriving DecidableEq

/-- Structured result assembled by the orchestrator: the analyzer result and
the score result it returns to the client. -/
structure PipeResult where
  documentType : String
  analysisResult : AnalyzerResult
  scoreResult : ScoreResult

/-- Steps 2 and 3 of the orchestrator on extracted content: analyze the
document, then invoke the scorer.  The scorer call passes only
`analysisResults` and `documentType`, so the scorer's `riskFactors`
parameter takes its default value, the empty list. -/
def analyzeAndScore (content : String) (documentType : String) : PipeResult :=
  let analysisResult := termsAnalyzer content documentType
  let scoreResult := privacyPolicyScorer analysisResult.analysis documentType []
  ⟨documentType, analysisResult, scoreResult⟩

/-- The deterministic core of `POST /api/chat`: branch on the input type
(URL versus long pasted text), extract content, analyze and score.  The URL
fetch is an external collaborator supplied as `fetchOracle`. -/
def pipe (fetchOracle : Option Fetched) (message : String) :
    Except PipeError PipeResult :=
  let isUrl := jsStartsWith message "http://" || jsStartsWith message "https://"
  let isLongText := (splitRuns isWsChar message.data).length > 100
  if isUrl then
    match fetchOracle with
    | none => .error .fetchFailed
    | some f => .ok (analyzeAndScore f.content f.documentType)
  else if isLongText then
    let t := directTextAnalyzer message "terms"
    .ok (analyzeAndScore t.content t.documentType)
  else .error .invalidInput

/-! ### Spec-side definitions used for refinement comparisons -/

/-- Clamp `x` to the closed interval `[lo, hi]`, as written in the
specification text. -/
def specClamp (x lo hi : ℚ) : ℚ := max lo (min hi x)

/-- The number of whitespace-delimited non-empty tokens of a message, the
reading of "word count" given in the specification's normalizer section. -/
def specTokenCount (s : String) : Nat :=
  ((splitRuns isWsChar s.data).filter fun w => w.length > 0).length

/-! ### Theorems -/

/-- C1: for every input to the document scorer, including adversarially
large, small, or negative per-category scores, the `overallScore` field of
the returned comprehensive score is an integer in the closed interval
`[0, 100]`. -/
theorem scorer_overallScore_bounds (analysisResults : AnalysisResults)
    (documentType : String) (riskFactors : List String) :
    0 ≤ (privacyPolicyScorer analysisResults documentType riskFactors).overallScore ∧
    (privacyPolicyScorer analysisResults documentType riskFactors).overallScore ≤ 100 := by
  unfold privacyPolicyScorer
  dsimp only
  omega

/-- C4: for every risk factor list of length at most 20 passed to the
document scorer, the `riskPenalty` field equals `min 15 (3 × length)`. -/
theorem scorer_riskPenalty_formula (analysisResults : AnalysisResults)
    (documentType : String) (riskFactors : List String)
    (hlen : riskFactors.length ≤ 20) :
    (privacyPolicyScorer analysisResults documentType riskFactors).riskPenalty =
      min 15 (3 * riskFactors.length) := by
  unfold privacyPolicyScorer
  dsimp only
  omega

/-- Witness for C4 at a concrete two-element risk factor list. -/
theorem scorer_riskPenalty_formula_witness :
    (["High Risk: sell your data", "Medium Risk: marketing purposes"] : List String).length ≤ 20 ∧
    (privacyPolicyScorer
        ⟨⟨true, [], 5⟩, ⟨true, [], 5⟩, ⟨true, [], 5⟩, ⟨true, [], 5⟩, none, none⟩
        "privacy"
        ["High Risk: sell your data", "Medium Risk: marketing purposes"]).riskPenalty =
      min 15 (3 * (["High Risk: sell your data", "Medium Risk: marketing purposes"] : List String).length) :=
  ⟨by decide,
   scorer_riskPenalty_formula
     ⟨⟨true, [], 5⟩, ⟨true, [], 5⟩, ⟨true, [], 5⟩, ⟨true, [], 5⟩, none, none⟩
     "privacy" _ (by decide)⟩

/-- C6: for every document type, including unknown ones that fall back to
the default weight set, the four weights returned by `getScoreWeights` sum
to exactly 100. -/
theorem scoreWeights_sum_100 (documentType : String) :
    (getScoreWeights documentType).dataCollection +
      (getScoreWeights documentType).userRights +
      (getScoreWeights documentType).dataSharing +
      (getScoreWeights documentType).security = 100 := by
  unfold getScoreWeights
  repeat' split
  all_goals norm_num

/-- The data sharing weight of every document type is at least 5. -/
theorem dataSharing_weight_ge_5 (documentType : String) :
    (5 : ℚ) ≤ (getScoreWeights documentType).dataSharing := by
  unfold getScoreWeights
  repeat' split
  all_goals norm_num

/-- Arithmetic core of the data sharing inversion: for weights of at least 5
and a nonnegative deduction, the source's `max`-form equals the
specification's subtracted clamp. -/
theorem max_form_eq_clamp_form (w x : ℚ) (hw : 5 ≤ w) (hx : 0 ≤ x) :
    max 5 (w - x) = w - specClamp x 0 (w - 5) := by
  unfold specClamp
  rcases le_total x (w - 5) with h | h
  · rw [min_eq_right h, max_eq_right hx, max_eq_right (by linarith)]
  · rw [min_eq_left h, max_eq_right (show (0 : ℚ) ≤ w - 5 by linarith),
      max_eq_left (show w - x ≤ 5 by linarith)]
    ring

/-- C5: for every document type's weight and every nonnegative raw data
sharing score, the weighted data sharing contribution equals
`weight − clamp(score×weight/15, [0, weight−5])` when the category was
found (hence is weakly decreasing in the raw score), and equals
`weight × 0.8` when it was not found. -/
theorem dataSharing_weighted_spec (documentType : String) (score : ℚ)
    (hscore : 0 ≤ score) :
    (dataSharingWeighted true score (getScoreWeights documentType).dataSharing =
      (getScoreWeights documentType).dataSharing -
        specClamp (score * (getScoreWeights documentType).dataSharing / 15) 0
          ((getScoreWeights documentType).dataSharing - 5)) ∧
    (dataSharingWeighted false score (getScoreWeights documentType).dataSharing =
      (getScoreWeights documentType).dataSharing * 0.8) ∧
    (∀ score2 : ℚ, score ≤ score2 →
      dataSharingWeighted true score2 (getScoreWeights documentType).dataSharing ≤
        dataSharingWeighted true score (getScoreWeights documentType).dataSharing) := by
  have hw : (5 : ℚ) ≤ (getScoreWeights documentType).dataSharing :=
    dataSharing_weight_ge_5 documentType
  set w := (getScoreWeights documentType).dataSharing with hwdef
  refine ⟨?_, ?_, ?_⟩
  · unfold dataSharingWeighted
    simp only [if_true]
    exact max_form_eq_clamp_form w (score * w / 15) hw
      (by positivity)
  · unfold dataSharingWeighted
    simp
  · intro score2 h2
    unfold dataSharingWeighted
    simp only [if_true]
    have : score * w ≤ score2 * w :=
      mul_le_mul_of_nonneg_right h2 (by linarith)
    have : score * w / 15 ≤ score2 * w / 15 := by linarith
    exact max_le_max le_rfl (by linarith)

/-- Witness for C5 at document type "privacy" and raw score 3. -/
theorem dataSharing_weighted_spec_witness :
    (0 : ℚ) ≤ 3 ∧
    (dataSharingWeighted true 3 (getScoreWeights "privacy").dataSharing =
      (getScoreWeights "privacy").dataSharing -
        specClamp (3 * (getScoreWeights "privacy").dataSharing / 15) 0
          ((getScoreWeights "privacy").dataSharing - 5)) :=
  ⟨by norm_num, (dataSharing_weighted_spec "privacy" 3 (by norm_num)).1⟩

/-- Range bounds for `calculateScore`, shared by the raw score invariants. -/
theorem calculateScore_nonneg_le_ten (details : List String) (category : String) :
    0 ≤ calculateScore details category ∧ calculateScore details category ≤ 10 := by
  unfold calculateScore
  split
  · norm_num
  · have hb0 : (0 : ℚ) ≤ min ((details.length : ℚ) * 1.5) 10 :=
      le_min (by positivity) (by norm_num)
    have hb10 : min ((details.length : ℚ) * 1.5) 10 ≤ 10 := min_le_right _ _
    set b := min ((details.length : ℚ) * 1.5) 10 with hbdef
    repeat' split
    all_goals constructor
    all_goals first
      | exact le_min (by nlinarith) (by norm_num)
      | exact le_max_of_le_right (by norm_num)
      | exact (min_le_right _ _).trans (by norm_num)
      | exact max_le (by nlinarith) (by norm_num)

/-- C7: every raw category score of `calculateScore` lies in `[0, 10]`; it
is 0 for an empty matched sentence list, and otherwise arises from
`base = min(matchCount × 1.5, 10)` through the category-specific
adjustment of the source. -/
theorem calculateScore_clamped (details : List String) (category : String) :
    (0 ≤ calculateScore details category ∧ calculateScore details category ≤ 10) ∧
    calculateScore [] category = 0 ∧
    (∀ (d : String) (ds : List String),
      calculateScore (d :: ds) "data_collection" =
        min (min (((d :: ds).length : ℚ) * 1.5) 10 * 0.8) 8 ∧
      calculateScore (d :: ds) "user_rights" =
        min (min (((d :: ds).length : ℚ) * 1.5) 10 * 1.2) 10 ∧
      calculateScore (d :: ds) "data_sharing" =
        max (min (((d :: ds).length : ℚ) * 1.5) 10) 3 ∧
      calculateScore (d :: ds) "security" =
        min (min (((d :: ds).length : ℚ) * 1.5) 10 * 1.1) 10 ∧
      calculateScore (d :: ds) "contract_terms" =
        min (min (((d :: ds).length : ℚ) * 1.5) 10) 10 ∧
      calculateScore (d :: ds) "confidentiality" =
        min (min (((d :: ds).length : ℚ) * 1.5) 10 * 1.1) 10) := by
  refine ⟨calculateScore_nonneg_le_ten details category, by simp [calculateScore], ?_⟩
  intro d ds
  refine ⟨?_, ?_, ?_, ?_, ?_, ?_⟩ <;> simp +decide [calculateScore]

/-- The risk scanning pass never grows the finding list beyond 5 when it
starts below 5 (the source breaks right after the push that reaches 5). -/
theorem riskScan_length_le (terms : List String) (label low : String) :
    ∀ acc : List String, acc.length < 5 →
      (riskScan terms label low acc).length ≤ 5 := by
  induction terms with
  | nil => intro acc h; unfold riskScan; omega
  | cons t ts ih =>
    intro acc h
    unfold riskScan
    split
    · dsimp only
      split
      · simp only [List.length_append, List.length_cons, List.length_nil]
        omega
      · apply ih
        rename_i hlt
        simp only [List.length_append, List.length_cons, List.length_nil] at hlt ⊢
        omega
    · exact ih acc h

/-- Every finding appended by a risk scanning pass is the pass's label
followed by one of its terms, in accumulator-then-new order. -/
theorem riskScan_structure (terms : List String) (label low : String) :
    ∀ acc : List String, ∃ ex,
      riskScan terms label low acc = acc ++ ex ∧
      ∀ x ∈ ex, ∃ t ∈ terms, x = label ++ t := by
  induction terms with
  | nil => intro acc; exact ⟨[], by simp [riskScan], by simp⟩
  | cons t ts ih =>
    intro acc
    unfold riskScan
    split
    · dsimp only
      split
      · refine ⟨[label ++ t], rfl, ?_⟩
        intro x hx
        simp only [List.mem_singleton] at hx
        exact ⟨t, List.mem_cons_self t ts, hx⟩
      · obtain ⟨ex, he, hall⟩ := ih (acc ++ [label ++ t])
        refine ⟨[label ++ t] ++ ex, by simpa using he, ?_⟩
        intro x hx
        rcases List.mem_append.mp hx with hx | hx
        · simp only [List.mem_singleton] at hx
          exact ⟨t, List.mem_cons_self t ts, hx⟩
        · obtain ⟨u, hu, hxu⟩ := hall x hx
          exact ⟨u, List.mem_cons_of_mem t hu, hxu⟩
    · obtain ⟨ex, he, hall⟩ := ih acc
      refine ⟨ex, he, ?_⟩
      intro x hx
      obtain ⟨u, hu, hxu⟩ := hall x hx
      exact ⟨u, List.mem_cons_of_mem t hu, hxu⟩

/-- A finding string is a labeled instance of one of the given terms. -/
def isLabeledFrom (label : String) (terms : List String) (x : String) : Bool :=
  terms.any fun t => x == label ++ t

/-- C8: the risk assessor returns at most 5 findings; its result is the
full high-risk pass followed only by medium-risk findings, and the
medium-risk findings are present only when the high-risk pass collected
fewer than 5. -/
theorem assessRiskFactors_cap_and_order (content documentType : String) :
    (assessRiskFactors content documentType).length ≤ 5 ∧
    riskScan highRiskTerms "High Risk: " (strLower content) [] =
      (assessRiskFactors content documentType).take
        (riskScan highRiskTerms "High Risk: " (strLower content) []).length ∧
    ((assessRiskFactors content documentType).drop
        (riskScan highRiskTerms "High Risk: " (strLower content) []).length).all
      (isLabeledFrom "Medium Risk: " mediumRiskTerms) = true ∧
    (riskScan highRiskTerms "High Risk: " (strLower content) []).all
      (isLabeledFrom "High Risk: " highRiskTerms) = true ∧
    ((riskScan highRiskTerms "High Risk: " (strLower content) []).length < 5 ∨
      (assessRiskFactors content documentType).drop
        (riskScan highRiskTerms "High Risk: " (strLower content) []).length = []) := by
  have hhs : ∀ x ∈ riskScan highRiskTerms "High Risk: " (strLower content) [],
      ∃ t ∈ highRiskTerms, x = "High Risk: " ++ t := by
    obtain ⟨ex, he, hall⟩ := riskScan_structure highRiskTerms "High Risk: " (strLower content) []
    simp only [List.nil_append] at he
    rw [he]
    exact hall
  have hhall : (riskScan highRiskTerms "High Risk: " (strLower content) []).all
      (isLabeledFrom "High Risk: " highRiskTerms) = true := by
    rw [List.all_eq_true]
    intro x hx
    obtain ⟨t, ht, hxt⟩ := hhs x hx
    unfold isLabeledFrom
    rw [List.any_eq_true]
    exact ⟨t, ht, by rw [beq_iff_eq]; exact hxt⟩
  have hlen : (riskScan highRiskTerms "High Risk: " (strLower content) []).length ≤ 5 :=
    riskScan_length_le highRiskTerms "High Risk: " (strLower content) [] (by simp)
  unfold assessRiskFactors
  dsimp only
  split
  · rename_i hlt
    obtain ⟨ex, he, hall⟩ := riskScan_structure mediumRiskTerms "Medium Risk: "
      (strLower content) (riskScan highRiskTerms "High Risk: " (strLower content) [])
    rw [he]
    refine ⟨?_, ?_, ?_, hhall, Or.inl hlt⟩
    · have := riskScan_length_le mediumRiskTerms "Medium Risk: " (strLower content)
        (riskScan highRiskTerms "High Risk: " (strLower content) []) hlt
      rw [he] at this
      exact this
    · rw [List.take_left]
    · rw [List.drop_left, List.all_eq_true]
      intro x hx
      obtain ⟨t, ht, hxt⟩ := hall x hx
      unfold isLabeledFrom
      rw [List.any_eq_true]
      exact ⟨t, ht, by rw [beq_iff_eq]; exact hxt⟩
  · refine ⟨hlen, by rw [List.take_length], ?_, hhall, ?_⟩
    · rw [List.drop_length]
      rfl
    · right
      rw [List.drop_length]

/-! ### Substring containment lemmas -/

theorem isPrefOf_iff (p l : List Char) : isPrefOf p l = true ↔ ∃ t, l = p ++ t := by
  induction p generalizing l with
  | nil => simp [isPrefOf]
  | cons a as ih =>
    cases l with
    | nil => simp [isPrefOf]
    | cons b bs =>
      simp only [isPrefOf, Bool.and_eq_true, beq_iff_eq]
      constructor
      · rintro ⟨rfl, h⟩
        obtain ⟨t, rfl⟩ := (ih bs).mp h
        exact ⟨t, rfl⟩
      · rintro ⟨t, ht⟩
        rw [List.cons_append] at ht
        injection ht with h1 h2
        exact ⟨h1.symm, (ih bs).mpr ⟨t, h2⟩⟩

theorem containsSub_iff (l p : List Char) :
    containsSub l p = true ↔ ∃ u v, l = u ++ p ++ v := by
  induction l with
  | nil =>
    simp only [containsSub, isPrefOf_iff]
    constructor
    · rintro ⟨t, ht⟩
      exact ⟨[], t, by simpa using ht⟩
    · rintro ⟨u, v, huv⟩
      rw [List.append_assoc] at huv
      rcases List.append_eq_nil.mp huv.symm with ⟨rfl, h2⟩
      exact ⟨v, by simpa using huv⟩
  | cons c t ih =>
    simp only [containsSub, Bool.or_eq_true, ih, isPrefOf_iff]
    constructor
    · rintro (⟨w, hw⟩ | ⟨u, v, huv⟩)
      · exact ⟨[], w, by simpa using hw⟩
      · exact ⟨c :: u, v, by simp [huv]⟩
    · rintro ⟨u, v, huv⟩
      cases u with
      | nil => exact Or.inl ⟨v, by simpa using huv⟩
      | cons x u2 =>
        simp only [List.cons_append, List.append_assoc] at huv
        injection huv with h1 h2
        exact Or.inr ⟨u2, v, by simpa [List.append_assoc] using h2⟩

theorem contains_append_left (a b p : List Char)
    (h : containsSub a p = true) : containsSub (a ++ b) p = true := by
  rw [containsSub_iff] at h ⊢
  obtain ⟨u, v, rfl⟩ := h
  exact ⟨u, v ++ b, by simp⟩

theorem contains_append_right (a b p : List Char)
    (h : containsSub b p = true) : containsSub (a ++ b) p = true := by
  rw [containsSub_iff] at h ⊢
  obtain ⟨u, v, rfl⟩ := h
  exact ⟨a ++ u, v, by simp⟩

theorem contains_trans (a b c : List Char)
    (hab : containsSub a b = true) (hbc : containsSub b c = true) :
    containsSub a c = true := by
  rw [containsSub_iff] at hab hbc ⊢
  obtain ⟨u, v, rfl⟩ := hab
  obtain ⟨u2, v2, rfl⟩ := hbc
  exact ⟨u ++ u2, v2 ++ v, by simp⟩

theorem contains_map (f : Char → Char) (l p : List Char)
    (h : containsSub l p = true) :
    containsSub (l.map f) (p.map f) = true := by
  rw [containsSub_iff] at h ⊢
  obtain ⟨u, v, rfl⟩ := h
  exact ⟨u.map f, v.map f, by simp⟩

theorem contains_reverse (l p : List Char) (h : containsSub l p = true) :
    containsSub l.reverse p.reverse = true := by
  rw [containsSub_iff] at h ⊢
  obtain ⟨u, v, rfl⟩ := h
  exact ⟨v.reverse, u.reverse, by simp⟩

theorem contains_length_le (l p : List Char) (h : containsSub l p = true) :
    p.length ≤ l.length := by
  rw [containsSub_iff] at h
  obtain ⟨u, v, rfl⟩ := h
  simp only [List.length_append]
  omega

theorem isPrefOf_append_cons (p : List Char) (c : Char) :
    ∀ xs ys : List Char, isPrefOf p (xs ++ c :: ys) = true →
      c ∈ p ∨ isPrefOf p xs = true := by
  induction p with
  | nil => intro xs ys _; exact Or.inr rfl
  | cons a as ih =>
    intro xs ys h
    cases xs with
    | nil =>
      simp only [List.nil_append, isPrefOf, Bool.and_eq_true, beq_iff_eq] at h
      exact Or.inl (h.1 ▸ List.mem_cons_self a as)
    | cons x xs2 =>
      simp only [List.cons_append, isPrefOf, Bool.and_eq_true] at h ⊢
      rcases ih xs2 ys h.2 with hm | hp
      · exact Or.inl (List.mem_cons_of_mem a hm)
      · exact Or.inr ⟨h.1, hp⟩

theorem contains_cons_of (c : Char) (t p : List Char)
    (h : containsSub t p = true) : containsSub (c :: t) p = true := by
  simp [containsSub, h]

theorem contains_append_cons_split (p : List Char) (c : Char)
    (hc : c ∉ p) (hp : p ≠ []) :
    ∀ xs ys : List Char, containsSub (xs ++ c :: ys) p = true →
      containsSub xs p = true ∨ containsSub ys p = true := by
  intro xs
  induction xs with
  | nil =>
    intro ys h
    simp only [List.nil_append, containsSub, Bool.or_eq_true] at h
    rcases h with h | h
    · cases p with
      | nil => exact absurd rfl hp
      | cons d ps =>
        simp only [isPrefOf, Bool.and_eq_true, beq_iff_eq] at h
        exact absurd (h.1 ▸ List.mem_cons_self d ps) hc
    · exact Or.inr h
  | cons x xs2 ih =>
    intro ys h
    rw [List.cons_append] at h
    simp only [containsSub, Bool.or_eq_true] at h
    rcases h with h | h
    · rw [show x :: (xs2 ++ c :: ys) = (x :: xs2) ++ c :: ys from rfl] at h
      rcases isPrefOf_append_cons p c (x :: xs2) ys h with hm | hpre
      · exact absurd hm hc
      · exact Or.inl (by simp [containsSub, hpre])
    · rcases ih ys h with h2 | h2
      · exact Or.inl (contains_cons_of x xs2 p h2)
      · exact Or.inr h2

theorem contains_dropWhile (q : Char → Bool) (p0 : Char) (ps : List Char)
    (h0 : q p0 = false) :
    ∀ l : List Char, containsSub l (p0 :: ps) = true →
      containsSub (l.dropWhile q) (p0 :: ps) = true := by
  intro l
  induction l with
  | nil => intro h; simp [containsSub, isPrefOf] at h
  | cons c t ih =>
    intro h
    by_cases hq : q c = true
    · rw [List.dropWhile_cons_of_pos hq]
      apply ih
      simp only [containsSub, Bool.or_eq_true] at h
      rcases h with h | h
      · simp only [isPrefOf, Bool.and_eq_true, beq_iff_eq] at h
        rw [h.1] at h0
        rw [h0] at hq
        exact absurd hq (by simp)
      · exact h
    · rw [List.dropWhile_cons_of_neg hq]
      exact h

theorem contains_trimChars (l : List Char) (p0 q0 : Char) (ps qs : List Char)
    (hrev : (p0 :: ps).reverse = q0 :: qs)
    (h0 : isWsChar p0 = false) (hq0 : isWsChar q0 = false)
    (h : containsSub l (p0 :: ps) = true) :
    containsSub (trimChars l) (p0 :: ps) = true := by
  unfold trimChars
  have h1 := contains_dropWhile isWsChar p0 ps h0 l h
  have h2 := contains_reverse _ _ h1
  rw [hrev] at h2
  have h3 := contains_dropWhile isWsChar q0 qs hq0 _ h2
  have h4 := contains_reverse _ _ h3
  have h5 : (q0 :: qs).reverse = p0 :: ps := by
    have := congrArg List.reverse hrev
    simpa using this.symm
  rw [h5] at h4
  exact h4

theorem splitRunsAux_cover (q : Char → Bool) (p : List Char)
    (hpq : ∀ d ∈ p, q d = false) (hne : p ≠ []) :
    ∀ l cur : List Char, ∀ inSep : Bool,
      containsSub (cur.reverse ++ l) p = true →
      ∃ s ∈ splitRunsAux q l cur inSep, containsSub s p = true := by
  intro l
  induction l with
  | nil =>
    intro cur inSep h
    exact ⟨cur.reverse, by simp [splitRunsAux], by simpa using h⟩
  | cons c rest ih =>
    intro cur inSep h
    by_cases hc : q c = true
    · have hcp : c ∉ p := fun hm => by simp [hpq c hm] at hc
      have hsplit := contains_append_cons_split p c hcp hne cur.reverse rest h
      cases inSep with
      | true =>
        have hcov : containsSub (cur.reverse ++ rest) p = true := by
          rcases hsplit with h2 | h2
          · exact contains_append_left _ _ _ h2
          · exact contains_append_right _ _ _ h2
        obtain ⟨s, hs, hsp⟩ := ih cur true hcov
        refine ⟨s, ?_, hsp⟩
        simpa [splitRunsAux, hc] using hs
      | false =>
        rcases hsplit with h2 | h2
        · exact ⟨cur.reverse, by simp [splitRunsAux, hc], h2⟩
        · obtain ⟨s, hs, hsp⟩ := ih [] true (by simpa using h2)
          refine ⟨s, ?_, hsp⟩
          simp only [splitRunsAux, hc, if_true]
          exact List.mem_cons_of_mem _ hs
    · have heq : (c :: cur).reverse ++ rest = cur.reverse ++ c :: rest := by
        simp
      obtain ⟨s, hs, hsp⟩ := ih (c :: cur) false (by rw [heq]; exact h)
      refine ⟨s, ?_, hsp⟩
      simpa [splitRunsAux, hc] using hs

theorem splitRuns_cover (q : Char → Bool) (p : List Char)
    (hpq : ∀ d ∈ p, q d = false) (hne : p ≠ []) (l : List Char)
    (h : containsSub l p = true) :
    ∃ s ∈ splitRuns q l, containsSub s p = true :=
  splitRunsAux_cover q p hpq hne l [] false (by simpa using h)

theorem countOccurAux_pos (pat : List Char) (hp : pat ≠ []) :
    ∀ s : List Char, containsSub s pat = true → 0 < countOccurAux pat s 0 := by
  intro s
  induction s with
  | nil =>
    intro h
    simp only [containsSub, isPrefOf_iff] at h
    obtain ⟨t, ht⟩ := h
    exact absurd (List.append_eq_nil.mp ht.symm).1 hp
  | cons c t ih =>
    intro h
    simp only [containsSub, Bool.or_eq_true] at h
    rcases h with h | h
    · simp [countOccurAux, h]
    · simp only [countOccurAux]
      split
      · omega
      · exact ih h

theorem countOccur_pos (s pat : List Char) (hp : pat ≠ [])
    (h : containsSub s pat = true) : 0 < countOccur s pat := by
  unfold countOccur
  rw [if_neg (by simp [hp])]
  exact countOccurAux_pos pat hp s h

theorem sentenceScore_pos_of_keyword (low : List Char) (keywords : List String)
    (k : String) (hk : k ∈ keywords) (hkne : k.data ≠ [])
    (hck : containsSub low (lowerChars k.data) = true) :
    0 < sentenceScore low keywords := by
  unfold sentenceScore
  have h1 : 0 < countOccur low (lowerChars k.data) :=
    countOccur_pos _ _ (fun hmap => hkne (by simpa [lowerChars] using hmap)) hck
  have hterm : 0 < countOccur low (lowerChars k.data) *
      (if k.length > 5 then 2 else 1) :=
    Nat.mul_pos h1 (by split <;> norm_num)
  exact lt_of_lt_of_le hterm (List.le_sum_of_mem (List.mem_map_of_mem _ hk))

theorem length_stableInsert (prec : α → α → Bool) (x : α) :
    ∀ l : List α, (stableInsert prec x l).length = l.length + 1 := by
  intro l
  induction l with
  | nil => rfl
  | cons y ys ih =>
    unfold stableInsert
    split
    · simp [ih]
    · simp

theorem length_stableSort (prec : α → α → Bool) :
    ∀ l : List α, (stableSort prec l).length = l.length := by
  intro l
  induction l with
  | nil => rfl
  | cons y ys ih =>
    unfold stableSort
    rw [length_stableInsert, ih, List.length_cons]

/-- If a sentence longer than 20 trimmed characters matches a keyword, the
section relevance finder returns at least one sentence. -/
theorem findRelevantSections_nonempty (content : String) (keywords : List String)
    (k : String) (hk : k ∈ keywords) (hkne : k.data ≠ [])
    (p0 q0 : Char) (ps qs : List Char)
    (hrev : (p0 :: ps).reverse = q0 :: qs)
    (hterm : ∀ d ∈ p0 :: ps, isTermChar d = false)
    (h0 : isWsChar p0 = false) (hq0 : isWsChar q0 = false)
    (hlen : 20 < (p0 :: ps).length)
    (hkp : containsSub (lowerChars (p0 :: ps)) (lowerChars k.data) = true)
    (h : containsSub content.data (p0 :: ps) = true) :
    findRelevantSections content keywords ≠ [] := by
  obtain ⟨s, hmem, hs⟩ :=
    splitRuns_cover isTermChar (p0 :: ps) hterm (by simp) content.data h
  have htr := contains_trimChars s p0 q0 ps qs hrev h0 hq0 hs
  have htlen : 20 < (trimChars s).length :=
    lt_of_lt_of_le hlen (contains_length_le _ _ htr)
  have hlow : containsSub (lowerChars s) (lowerChars k.data) = true :=
    contains_trans _ _ _ (contains_map Char.toLower s (p0 :: ps) hs) hkp
  have hscore : 0 < sentenceScore (lowerChars s) keywords :=
    sentenceScore_pos_of_keyword _ _ k hk hkne hlow
  have hrel : (trimChars s, sentenceScore (lowerChars s) keywords) ∈
      relevantOf content keywords := by
    unfold relevantOf
    rw [List.mem_filterMap]
    refine ⟨s, ?_, ?_⟩
    · rw [List.mem_filter]
      exact ⟨hmem, by simpa using htlen⟩
    · dsimp only
      rw [if_pos hscore]
  rw [← List.length_pos]
  unfold findRelevantSections
  rw [List.length_map, List.length_take, length_stableSort]
  have := List.length_pos.mpr (List.ne_nil_of_mem hrel)
  omega

/-- Bool test for the success constructor of `Except`. -/
def exceptIsOk : Except ε α → Bool
  | .ok _ => true
  | .error _ => false

/-- C3: every successful run of the chat orchestrator returns a
comprehensive score whose `riskFactors` is the empty list and whose
`riskPenalty` is 0, regardless of what the analyzer detected: the scorer is
invoked without a `riskFactors` argument, so the parameter takes its default
empty-list value. -/
theorem pipe_riskPenalty_always_zero (fetchOracle : Option Fetched)
    (message : String) (r : PipeResult)
    (h : pipe fetchOracle message = .ok r) :
    r.scoreResult.riskFactors = [] ∧ r.scoreResult.riskPenalty = 0 := by
  unfold pipe at h
  dsimp only at h
  split at h
  · split at h
    · exact absurd h (by simp)
    · injection h with h2
      subst h2
      exact ⟨rfl, rfl⟩
  · split at h
    · injection h with h2
      subst h2
      exact ⟨rfl, rfl⟩
    · exact absurd h (by simp)

/-- A pasted message of 101 filler words, long enough for the direct text
branch of the orchestrator. -/
def msgLong : String := String.intercalate " " (List.replicate 101 "word")

set_option maxRecDepth 40000 in
/-- Witness for C3: the concrete 101-word pasted message takes the direct
text branch and its score carries no risk factors and a zero penalty. -/
theorem pipe_riskPenalty_always_zero_witness :
    ∃ r, pipe none msgLong = .ok r ∧
      r.scoreResult.riskFactors = [] ∧ r.scoreResult.riskPenalty = 0 := by
  have hok : exceptIsOk (pipe none msgLong) = true := by decide
  rcases hh : pipe none msgLong with e | r
  · rw [hh] at hok
    simp [exceptIsOk] at hok
  · exact ⟨r, rfl, pipe_riskPenalty_always_zero none msgLong r hh⟩

/-- A pasted message with a leading space followed by exactly 100
whitespace-delimited non-empty tokens.  JavaScript's
`message.split(/\s+/)` yields an extra empty leading fragment for it, so
the orchestrator's length check counts 101. -/
def msgEdge : String := " " ++ String.intercalate " " (List.replicate 100 "data")

set_option maxRecDepth 40000 in
/-- Counterexample to C10 as stated: `msgEdge` is not a URL and has exactly
100 whitespace-delimited non-empty tokens, yet the pipeline does not fail
with the invalid-input error — it takes the pasted-text branch and
succeeds, because the source counts split fragments (101 here, due to the
leading space), not non-empty tokens. -/
theorem pipe_invalid_input_counterexample :
    jsStartsWith msgEdge "http://" = false ∧
    jsStartsWith msgEdge "https://" = false ∧
    specTokenCount msgEdge = 100 ∧
    exceptIsOk (pipe none msgEdge) = true ∧
    pipe none msgEdge ≠ .error .invalidInput := by
  have hok : exceptIsOk (pipe none msgEdge) = true := by decide
  refine ⟨by decide, by decide, by decide, hok, ?_⟩
  intro h
  rw [h] at hok
  simp [exceptIsOk] at hok

/-- C10 (amended): the branch decision uses the JavaScript split count
`message.split(/\s+/).length`, which counts an empty leading or trailing
fragment produced by surrounding whitespace.  Non-URL messages whose split
count is at most 100 fail with the invalid-input error, URL-prefixed
messages take the URL branch, and non-URL messages with split count above
100 take the pasted-text branch. -/
theorem pipe_branching_amended (fetchOracle : Option Fetched) (message : String) :
    ((jsStartsWith message "http://" = false ∧ jsStartsWith message "https://" = false) →
      (splitRuns isWsChar message.data).length ≤ 100 →
      pipe fetchOracle message = .error .invalidInput) ∧
    ((jsStartsWith message "http://" = true ∨ jsStartsWith message "https://" = true) →
      pipe fetchOracle message =
        (match fetchOracle with
         | none => .error .fetchFailed
         | some f => .ok (analyzeAndScore f.content f.documentType))) ∧
    ((jsStartsWith message "http://" = false ∧ jsStartsWith message "https://" = false) →
      (splitRuns isWsChar message.data).length > 100 →
      pipe fetchOracle message =
        .ok (analyzeAndScore (directTextAnalyzer message "terms").content
          (directTextAnalyzer message "terms").documentType)) := by
  refine ⟨?_, ?_, ?_⟩
  · rintro ⟨h1, h2⟩ h3
    unfold pipe
    rw [h1, h2]
    simp only [Bool.or_self, Bool.false_eq_true, if_false]
    rw [if_neg (by omega)]
  · intro h
    unfold pipe
    rcases h with h | h
    · rw [h]
      simp only [Bool.true_or, if_true]
    · rw [h]
      simp only [Bool.or_true, if_true]
  · rintro ⟨h1, h2⟩ h3
    unfold pipe
    rw [h1, h2]
    simp only [Bool.or_self, Bool.false_eq_true, if_false]
    rw [if_pos (by omega)]

/-- A pasted privacy-policy text of exactly 150 whitespace-delimited words
containing the sentences "We collect your email address …" and "We may sell
your data to third parties …". -/
def c2msg : String :=
  "This privacy policy explains how our service handles the information that users provide to us during normal use. We collect your email address when you register for an account. We may sell your data to third parties in some cases. The rest of this document describes the categories of information involved and the choices that remain available to every reader. Our team reviews the document each year and updates the wording when the law changes in a relevant way. Questions about this document can be sent directly to the support desk at any hour of the day. A printed copy is always available upon request from the reception area of the main office building. Readers should keep a personal copy of this page for their own records and review it very often. Nothing written on this page replaces the advice of a qualified lawyer in your own country or region."

set_option maxRecDepth 200000 in
/-- C2 evidence: on the concrete 150-word pasted privacy text, the pipeline
detects the data collection category and the analyzer reports the High risk
finding for "sell your data", yet the comprehensive score's `riskPenalty`
is 0 (not at least 3) because the orchestrator never passes the analyzer's
risk factors to the scorer. -/
theorem pipe_privacy_scenario_riskPenalty_zero :
    specTokenCount c2msg = 150 ∧
    strIncludes (strLower c2msg) "we collect your email address" = true ∧
    strIncludes (strLower c2msg) "we may sell your data to third parties" = true ∧
    ∃ r, pipe none c2msg = .ok r ∧
      r.documentType = "privacy" ∧
      r.analysisResult.analysis.dataCollection.found = true ∧
      "High Risk: sell your data" ∈ r.analysisResult.riskFactors ∧
      r.scoreResult.riskPenalty = 0 := by
  refine ⟨by decide, by decide, by decide,
    analyzeAndScore (directTextAnalyzer c2msg "terms").content
      (directTextAnalyzer c2msg "terms").documentType,
    rfl, by decide, by decide, by decide, rfl⟩

/-- Witness for the amended C10: the two-character message "hi" is not a
URL, splits into a single fragment, and fails with the invalid-input
error. -/
theorem pipe_branching_amended_witness :
    (jsStartsWith "hi" "http://" = false ∧ jsStartsWith "hi" "https://" = false) ∧
    (splitRuns isWsChar "hi".data).length ≤ 100 ∧
    pipe none "hi" = .error .invalidInput :=
  ⟨⟨by decide, by decide⟩, by decide,
    (pipe_branching_amended none "hi").1 ⟨by decide, by decide⟩ (by decide)⟩

/-- Every finding returned by the risk assessor is one of the fixed
high-risk terms with the High label or one of the fixed medium-risk terms
with the Medium label. -/
theorem assessRiskFactors_mem (content documentType f : String)
    (hf : f ∈ assessRiskFactors content documentType) :
    (∃ t ∈ highRiskTerms, f = "High Risk: " ++ t) ∨
    (∃ t ∈ mediumRiskTerms, f = "Medium Risk: " ++ t) := by
  unfold assessRiskFactors at hf
  dsimp only at hf
  obtain ⟨exH, heH, hallH⟩ :=
    riskScan_structure highRiskTerms "High Risk: " (strLower content) []
  rw [List.nil_append] at heH
  split at hf
  · obtain ⟨exM, heM, hallM⟩ :=
      riskScan_structure mediumRiskTerms "Medium Risk: " (strLower content)
        (riskScan highRiskTerms "High Risk: " (strLower content) [])
    rw [heM] at hf
    rcases List.mem_append.mp hf with hh | hm
    · rw [heH] at hh
      exact Or.inl (hallH f hh)
    · exact Or.inr (hallM f hm)
  · rw [heH] at hf
    exact Or.inl (hallH f hf)

/-- An NDA text containing "perpetual confidentiality" and none of the
fixed risk phrases. -/
def cxNda : String :=
  "This agreement imposes perpetual confidentiality obligations on the receiving party."

/-- Counterexample to C9 as stated: the concrete NDA text contains
"perpetual confidentiality" (and its confidentiality category is found),
yet the analyzer's risk factor list is empty, so no High risk finding for
"perpetual" or "indefinite" is present: neither phrase occurs in the fixed
risk term lists. -/
theorem nda_perpetual_counterexample :
    strIncludes cxNda "perpetual confidentiality" = true ∧
    (termsAnalyzer cxNda "nda").riskFactors = [] ∧
    ((termsAnalyzer cxNda "nda").analysis.confidentialityTerms.map
      CategoryResult.found) = some true := by
  refine ⟨by decide, by decide, by decide⟩

/-- C9 (amended): for every document analyzed with documentType "nda" whose
content contains "perpetual confidentiality", the confidentialityTerms
category has found = true and the NDA weight table assigns dataSharing 35
and security 30 versus dataCollection 15; no risk finding mentioning
"perpetual" or "indefinite" is produced, since neither phrase occurs in the
fixed risk term lists. -/
theorem nda_perpetual_amended (content : String)
    (h : strIncludes content "perpetual confidentiality" = true) :
    (∃ c, (termsAnalyzer content "nda").analysis.confidentialityTerms = some c ∧
      c.found = true) ∧
    (getScoreWeights "nda").dataSharing = 35 ∧
    (getScoreWeights "nda").security = 30 ∧
    (getScoreWeights "nda").dataCollection = 15 ∧
    (termsAnalyzer content "nda").riskFactors.all
      (fun f => !(strIncludes f "perpetual") && !(strIncludes f "indefinite")) = true := by
  have hne : findRelevantSections content ndaKeywords ≠ [] := by
    apply findRelevantSections_nonempty content ndaKeywords "confidential"
      (by decide) (by decide) 'p' 'y' ("erpetual confidentiality".data)
      ("tilaitnedifnoc lauteprep".data) (by decide) (by decide) (by decide)
      (by decide) (by decide) (by decide)
    exact h
  have hempty : (findRelevantSections content ndaKeywords).isEmpty = false :=
    List.isEmpty_eq_false.mpr hne
  refine ⟨?_, by decide, by decide, by decide, ?_⟩
  · refine ⟨mkCategory (findRelevantSections content ndaKeywords) "confidentiality",
      ?_, ?_⟩
    · unfold termsAnalyzer
      dsimp only
      rw [if_pos rfl, if_neg (by simp [hempty])]
    · simp [mkCategory, hempty]
  · rw [List.all_eq_true]
    intro f hf
    have hf2 : f ∈ assessRiskFactors content "nda" := hf
    rcases assessRiskFactors_mem content "nda" f hf2 with ⟨t, ht, rfl⟩ | ⟨t, ht, rfl⟩
    · exact List.all_eq_true.mp
        (show (highRiskTerms.all fun t =>
          (!(strIncludes ("High Risk: " ++ t) "perpetual") &&
            !(strIncludes ("High Risk: " ++ t) "indefinite"))) = true by decide) t ht
    · exact List.all_eq_true.mp
        (show (mediumRiskTerms.all fun t =>
          (!(strIncludes ("Medium Risk: " ++ t) "perpetual") &&
            !(strIncludes ("Medium Risk: " ++ t) "indefinite"))) = true by decide) t ht

/-- Witness for the amended C9 at a concrete NDA sentence. -/
theorem nda_perpetual_amended_witness :
    strIncludes "Both sides accept perpetual confidentiality duties under this deed."
      "perpetual confidentiality" = true ∧
    (∃ c, (termsAnalyzer
        "Both sides accept perpetual confidentiality duties under this deed."
        "nda").analysis.confidentialityTerms = some c ∧ c.found = true) :=
  ⟨by decide,
    (nda_perpetual_amended
      "Both sides accept perpetual confidentiality duties under this deed."
      (by decide)).1⟩

end ClauseAI
